import Mathlib

/-!
Verification of the numeric core of the `cp_pipe` brighter-fatter kernel
pipeline.  The definitions below are shallow embeddings of
`python/lsst/cp/pipe/makeBrighterFatterKernel.py`
(`BrighterFatterKernelSolveTask`) and
`python/lsst/cp/pipe/ptc/cpExtractPtcTask.py`
(`PhotonTransferCurveExtractTask`).  Exact rational arithmetic stands in
for floating point in the kernel-averaging pipeline; the successive
over-relaxation solver is embedded over the reals because its relaxation
parameter is `cos (pi / gridSize)`.
-/

namespace CpPipe

/-- A two-dimensional array of rationals, addressed by row and column.
Shape information is carried separately by the functions that consume it;
cells outside the intended shape are irrelevant to every statement. -/
abbrev Grid : Type := ℕ → ℕ → ℚ

/-- Single-cell in-place assignment `g[i, j] = v`, as used by the numpy
code for element updates. -/
def upd (g : Grid) (i j : ℕ) (v : ℚ) : Grid :=
  fun a b => if a = i ∧ b = j then v else g a b

/-- `np.sum` over the leading `k × k` block of a grid. -/
def gridSum (g : Grid) (k : ℕ) : ℚ :=
  ∑ i ∈ Finset.range k, ∑ j ∈ Finset.range k, g i j

/-- `np.sum(np.abs(...))` over the leading `k × k` block of a grid. -/
def gridAbsSum (g : Grid) (k : ℕ) : ℚ :=
  ∑ i ∈ Finset.range k, ∑ j ∈ Finset.range k, |g i j|

/-- Python `range(start, stop, step)` for a positive step. -/
def pyRange (start stop step : ℕ) : List ℕ :=
  List.range' start ((stop - start + step - 1) / step) step

/-- Row-major enumeration of the index pairs `(i, j)` with `i, j < m`,
the iteration order of `for i in range(m): for j in range(m)`. -/
def pairsRowMajor (m : ℕ) : List (ℕ × ℕ) :=
  (List.range m).flatMap (fun i => (List.range m).map (fun j => (i, j)))

/-!  `BrighterFatterKernelSolveTask._tileArray`: tile/mirror a square
quarter-image of side `n` into the full `(2n-1) × (2n-1)` image.  The
Python loop body performs, for each `(i, j)` with `i, j ≤ length`,
the four assignments
`output[i+length, j+length] = output[-i+length, j+length] =
 output[i+length, -j+length] = output[-i+length, -j+length] = in_array[i, j]`
(note `-i + length = length - i` for `0 ≤ i ≤ length`). -/

/-- One iteration of the `_tileArray` loop body: the four mirrored
assignments for the index pair `ij`, in source order. -/
def tileStep (q : Grid) (length : ℕ) (g : Grid) (ij : ℕ × ℕ) : Grid :=
  let v := q ij.1 ij.2
  upd (upd (upd (upd g (ij.1 + length) (ij.2 + length) v)
        (length - ij.1) (ij.2 + length) v)
      (ij.1 + length) (length - ij.2) v)
    (length - ij.1) (length - ij.2) v

/-- `_tileArray(in_array)` for a square quarter-array of side `n`
(`length = n - 1` in the source): start from `np.zeros` and run the
doubly nested assignment loop over `range(length + 1) × range(length + 1)`. -/
def tileArray (q : Grid) (n : ℕ) : Grid :=
  (pairsRowMajor n).foldl (tileStep q (n - 1)) (fun _ _ => 0)

/-- The four cells written by one `_tileArray` loop iteration. -/
def tileCells (length : ℕ) (ij : ℕ × ℕ) : List (ℕ × ℕ) :=
  [(ij.1 + length, ij.2 + length), (length - ij.1, ij.2 + length),
   (ij.1 + length, length - ij.2), (length - ij.1, length - ij.2)]

/-- Distance between two naturals, `|a - b|` computed in ℕ. -/
def ndist (a b : ℕ) : ℕ := max (a - b) (b - a)

/-!  `BrighterFatterKernelSolveTask.averageCorrelations`.  The per-cell
sigma-clipped mean is delegated to the external
`afwMath.makeStatistics(..., afwMath.MEANCLIP, sctrl)`; it enters the
embedding as an explicit statistics function `stat` applied to the
across-sample vector `xCorrList[:, i, j]` (the source transposes the
stacked list and indexes `xCorrList[i, j]`). -/

/-- `averageCorrelations(xCorrList, name)` for input arrays of shape
`m × m`: per-cell clipped mean via `stat`, `np.pad(..., ((1, 1)))`, then
`if self.config.forceZeroSum or True:` subtract the total sum from the
center cell. -/
def averageCorrelations (stat : List ℚ → ℚ) (forceZeroSum : Bool)
    (xCorrList : List Grid) (m : ℕ) : Grid :=
  let meanXcorr : Grid := fun i j => stat (xCorrList.map (fun x => x i j))
  let padded : Grid := fun i j =>
    if 1 ≤ i ∧ i ≤ m ∧ 1 ≤ j ∧ j ≤ m then meanXcorr (i - 1) (j - 1) else 0
  let center := (m + 2 - 1) / 2
  if forceZeroSum || true then
    let totalSum := gridSum padded (m + 2)
    upd padded center center (padded center center - totalSum)
  else
    padded

/-!  The per-sample processing loop of `BrighterFatterKernelSolveTask.run`
(lines 224-256).  A covariance sample carries the PTC mean signal
(`bfk.means`, in ADU) and the raw quarter cross-correlation array
(`bfk.rawXcorrs`); the task converts the mean to electrons with the gain
before the loop.  The Python local variable `scaled` is threaded
explicitly as an `Option Grid`: it is `none` while the variable is still
unbound. -/

/-- One covariance sample of the PTC dataset for one amplifier:
mean signal in ADU and quarter cross-correlation array. -/
structure BfkSample where
  flux : ℚ
  xcorr : Grid

/-- The quarter array `q` after
`q = np.array(xcorr) * gain * gain`, `q *= 2.0`, and
`q[0][0] -= 2.0*(flux)` (with `flux` already in electrons). -/
def selfSubtractedQ (gain flux : ℚ) (xcorr : Grid) : Grid :=
  let q : Grid := fun i j => xcorr i j * gain * gain * 2
  upd q 0 0 (q 0 0 - 2 * flux)

/-- One iteration of the sample loop: state is
`(scaledCorrList, scaled-variable)`; `n` is the quarter-array side.
Rejection at the self-term check leaves the state unchanged; rejection at
the triangle-inequality check still assigns the `scaled` variable. -/
def sampleStep (rejectLevel : ℚ) (n : ℕ) (gain flux : ℚ)
    (st : List Grid × Option Grid) (xcorr : Grid) : List Grid × Option Grid :=
  let q := selfSubtractedQ gain flux xcorr
  if q 0 0 > 0 then st
  else
    let q2 : Grid := fun i j => q i j / (-2 * flux ^ 2)
    let scaled := tileArray q2 n
    let sz := 2 * (n - 1) + 1
    let xcorrCheck := |gridSum scaled sz| / gridAbsSum scaled sz
    if xcorrCheck > rejectLevel then (st.1, some scaled)
    else (st.1 ++ [scaled], some scaled)

/-- The accepted list `scaledCorrList` (and the final value of the
`scaled` variable) for one amplifier: fold the sample loop over the
amplifier's samples, converting each ADU mean to electrons with the gain
(`fluxes = np.array([flux*gain for flux in fluxes])`). -/
def ampScaledCorr (rejectLevel : ℚ) (n : ℕ) (gain : ℚ)
    (samples : List BfkSample) (scaledVar : Option Grid) :
    List Grid × Option Grid :=
  samples.foldl
    (fun st s => sampleStep rejectLevel n gain (s.flux * gain) st s.xcorr)
    ([], scaledVar)

/-- Control-flow outcome of the per-amplifier stage after the sample
loop (lines 253-265): either the `len(scaledCorrList) == 0` fallback
`bfk.ampKernels[ampName] = np.zeros_like(np.pad(scaled, ((1, 1))))`
succeeds with a zero kernel, or it raises `NameError` because the local
variable `scaled` was never assigned (`crash`), or the accepted list is
handed on to averaging and relaxation (`proceed`). -/
inductive AmpOutcome where
  | crash : AmpOutcome
  | zeroKernel : Grid → AmpOutcome
  | proceed : List Grid → AmpOutcome

/-- `true` exactly on the `crash` outcome. -/
def AmpOutcome.isCrash : AmpOutcome → Bool
  | .crash => true
  | _ => false

/-- The per-amplifier stage of `run`: sample loop, then the
empty-accepted-list fallback.  Returns the outcome together with the
value of the `scaled` local after this amplifier (it persists into the
next iteration of the amplifier loop). -/
def ampRunStage (rejectLevel : ℚ) (n : ℕ) (gain : ℚ)
    (samples : List BfkSample) (scaledVar : Option Grid) :
    AmpOutcome × Option Grid :=
  let r := ampScaledCorr rejectLevel n gain samples scaledVar
  if r.1.isEmpty then
    match r.2 with
    | none => (AmpOutcome.crash, none)
    | some s => (AmpOutcome.zeroKernel (fun _ _ => 0), some s)
  else
    (AmpOutcome.proceed r.1, r.2)

/-- The pooled `detectorCorrList` built by the amplifier loop of `run`:
for each amplifier (name, gain, samples), run the sample loop; on
`len(scaledCorrList) == 0` the loop `continue`s, otherwise
`if self.config.level == 'DETECTOR': detectorCorrList.extend(scaledCorrList)`.
The configuration field `ignoreAmpsForAveraging` is accepted here because
the task config declares it, but — exactly as in the source — it is never
consulted. -/
def runDetectorCorrList (level : String) (ignoreAmpsForAveraging : List String)
    (rejectLevel : ℚ) (n : ℕ) (amps : List (String × ℚ × List BfkSample)) :
    List Grid :=
  (amps.foldl
    (fun (acc : List Grid × Option Grid) amp =>
      let r := ampScaledCorr rejectLevel n amp.2.1 amp.2.2 acc.2
      if r.1.isEmpty then (acc.1, r.2)
      else if level = "DETECTOR" then (acc.1 ++ r.1, r.2) else (acc.1, r.2))
    (([] : List Grid), (none : Option Grid))).1

/-!  `PhotonTransferCurveExtractTask.run` (cpExtractPtcTask.py). -/

/-- The mean-signal acceptance decision of `run` (lines 324-325):
`if (muDiff <= minMeanSignalDict[ampName]) or (muDiff >= maxMeanSignalDict[ampName]):
    expIdMask = False`.  `mask` is the value of `expIdMask` before the
check. -/
def expIdMaskFluxWindow (muDiff minSignal maxSignal : ℚ) (mask : Bool) : Bool :=
  if muDiff ≤ minSignal ∨ muDiff ≥ maxSignal then false else mask

/-- A three-dimensional rational array, addressed by pair index and the
two lag indices: the type of `covArray`, which has shape `(1, m, m)` —
the NaN branch builds it as `np.full((1, m, m), np.nan)` and
`makeCovArray` likewise returns a pair-indexed stack of lag matrices. -/
abbrev Grid3 : Type := ℕ → ℕ → ℕ → ℚ

/-- The sigma-clip bias correction of the covariance array
(lines 335-339): `covArray *= varFactor**2` followed by
`covArray[0, 0] /= varFactor`.  Since `covArray` is the 3-D
`(1, m, m)` stack, the basic-indexing pair `[0, 0]` selects the whole
lag-row `[0, 0, :]` of the first (only) pair matrix, so the division
applies to every entry with pair index 0 and lag `i = 0`. -/
def correctCovArray (varFactor : ℚ) (covArray : Grid3) : Grid3 :=
  let c : Grid3 := fun p i j => covArray p i j * varFactor ^ 2
  fun p i j => if p = 0 ∧ i = 0 then c p i j / varFactor else c p i j

/-!  Concrete covariance samples used to evaluate the embedding at
specific inputs (unit gain, mean signal of one electron). -/

/-- Quarter cross-correlation with `xcorr[0][0] = 1`, `xcorr[0][1] = -1`:
after unit gain and doubling, the zero-lag entry minus `2*flux` is
exactly `0` for `flux = 1`. -/
def xcorrZeroLagZero : Grid :=
  fun i j => if i = 0 ∧ j = 0 then 1 else if i = 0 ∧ j = 1 then -1 else 0

/-- Quarter cross-correlation with `xcorr[0][0] = 2`: after unit gain and
doubling, the zero-lag entry minus `2*flux` is `2 > 0` for `flux = 1`,
so the sample is rejected at the self-term check. -/
def xcorrSelfTermPositive : Grid :=
  fun i j => if i = 0 ∧ j = 0 then 2 else 0

/-!  `BrighterFatterKernelSolveTask.successiveOverRelax(source, maxIter,
eLevel)` (lines 367-451).  The working arrays `func` and `resid` have
shape `(n+2) × (n+2)` for a square `n × n` source; they are embedded as
real-valued grids, updated in the exact sequential order of the Python
loops.  `np.cos` forces this part of the embedding into ℝ. -/

noncomputable section

/-- A real-valued two-dimensional array. -/
abbrev RGrid : Type := ℕ → ℕ → ℝ

/-- Single-cell assignment on a real grid. -/
def updR (g : RGrid) (i j : ℕ) (v : ℝ) : RGrid :=
  fun a b => if a = i ∧ b = j then v else g a b

/-- `np.sum(np.abs(g))` over the `k × k` working array. -/
def absSumR (g : RGrid) (k : ℕ) : ℝ :=
  ∑ i ∈ Finset.range k, ∑ j ∈ Finset.range k, |g i j|

/-- The grid spacing local `dx = 1.0`. -/
def sorDx : ℝ := 1

/-- The sweep residual
`func[i, j-1] + func[i, j+1] + func[i-1, j] + func[i+1, j]
 - 4.0*func[i, j] - dx*dx*source[i-1, j-1]`. -/
def residSweepAt (source func : RGrid) (i j : ℕ) : ℝ :=
  func i (j - 1) + func i (j + 1) + func (i - 1) j + func (i + 1) j
    - 4 * func i j - sorDx * sorDx * source (i - 1) (j - 1)

/-- Index pairs of the interior double loop
`for i in range(1, N-1): for j in range(1, N-1)` over the padded array. -/
def interiorPairs (N : ℕ) : List (ℕ × ℕ) :=
  (pyRange 1 (N - 1) 1).flatMap
    (fun i => (pyRange 1 (N - 1) 1).map (fun j => (i, j)))

/-- The initial-residual loop (lines 400-404), run with `func` all zero:
`resid[i, j] = func[i, j-1] + ... + func[i+1, j] - 4*func[i, j]
 - source[i-1, j-1]` for every interior point. -/
def sorInitResid (n : ℕ) (source : RGrid) : RGrid :=
  let func : RGrid := fun _ _ => 0
  (interiorPairs (n + 2)).foldl
    (fun r ij =>
      updR r ij.1 ij.2
        (func ij.1 (ij.2 - 1) + func ij.1 (ij.2 + 1) + func (ij.1 - 1) ij.2
          + func (ij.1 + 1) ij.2 - 4 * func ij.1 ij.2
          - source (ij.1 - 1) (ij.2 - 1)))
    (fun _ _ => 0)

/-- Index pairs of the half-sweep taken when `nIter % 2 == 0`:
`range(1, N-1, 2) × range(1, N-1, 2)` followed by
`range(2, N-1, 2) × range(2, N-1, 2)`. -/
def sweepPairsEven (N : ℕ) : List (ℕ × ℕ) :=
  (pyRange 1 (N - 1) 2).flatMap
      (fun i => (pyRange 1 (N - 1) 2).map (fun j => (i, j)))
    ++ (pyRange 2 (N - 1) 2).flatMap
      (fun i => (pyRange 2 (N - 1) 2).map (fun j => (i, j)))

/-- Index pairs of the half-sweep taken when `nIter % 2 == 1`:
`range(1, N-1, 2) × range(2, N-1, 2)` followed by
`range(2, N-1, 2) × range(1, N-1, 2)`. -/
def sweepPairsOdd (N : ℕ) : List (ℕ × ℕ) :=
  (pyRange 1 (N - 1) 2).flatMap
      (fun i => (pyRange 2 (N - 1) 2).map (fun j => (i, j)))
    ++ (pyRange 2 (N - 1) 2).flatMap
      (fun i => (pyRange 1 (N - 1) 2).map (fun j => (i, j)))

/-- One Gauss-Seidel point update:
`resid[i, j] = float(...)`; `func[i, j] += omega*resid[i, j]*.25`.
State is the pair `(func, resid)`. -/
def sorUpdate (source : RGrid) (omega : ℝ) (st : RGrid × RGrid)
    (ij : ℕ × ℕ) : RGrid × RGrid :=
  let r := residSweepAt source st.1 ij.1 ij.2
  (updR st.1 ij.1 ij.2 (st.1 ij.1 ij.2 + omega * r * 0.25),
   updR st.2 ij.1 ij.2 r)

/-- Mutable state of the SOR `while` loop. -/
structure SorState where
  func : RGrid
  resid : RGrid
  omega : ℝ
  nIter : ℕ

/-- One half-step: update the checkerboard subset selected by the parity
of `nIter`, point by point in loop order. -/
def sorSweep (n : ℕ) (source : RGrid) (s : SorState) : SorState :=
  let pairs := if s.nIter % 2 = 0 then sweepPairsEven (n + 2)
               else sweepPairsOdd (n + 2)
  let st := pairs.foldl (sorUpdate source s.omega) (s.func, s.resid)
  { s with func := st.1, resid := st.2 }

/-- The `while nIter < maxIter*2` loop, with the remaining iteration
budget as fuel.  Each pass does one half-sweep, recomputes
`outError = np.sum(np.abs(resid))`, breaks on
`outError < inError*eLevel` (returning `true` for the break), and
otherwise updates `omega` by the Chebyshev recurrence and increments
`nIter`. -/
def sorLoop (n : ℕ) (source : RGrid) (rho eLevel inError : ℝ) :
    ℕ → SorState → SorState × Bool
  | 0, s => (s, false)
  | fuel + 1, s =>
    let s1 := sorSweep n source s
    let outError := absSumR s1.resid (n + 2)
    if outError < inError * eLevel then (s1, true)
    else
      let omega1 := if s1.nIter = 0 then 1 / (1 - rho * rho / 2)
                    else 1 / (1 - rho * rho * s1.omega / 4)
      sorLoop n source rho eLevel inError fuel
        { s1 with omega := omega1, nIter := s1.nIter + 1 }

/-- `rhoSpe = np.cos(np.pi/source.shape[0])` for an `n × n` source. -/
noncomputable def sorRho (n : ℕ) : ℝ := Real.cos (Real.pi / n)

/-- The initial loop state: `func` all zero, the initial residual array,
`omega = 1.0`, `nIter = 0`. -/
def sorInitState (n : ℕ) (source : RGrid) : SorState :=
  { func := fun _ _ => 0, resid := sorInitResid n source, omega := 1, nIter := 0 }

/-- Result of `successiveOverRelax`: the returned interior slice
`func[1:-1, 1:-1]` (typed to the `n × n` shape of the input), the final
`nIter`, whether the convergence break was taken, whether the
non-convergence warning fired (`nIter >= maxIter*2`), the initial error,
and the final `omega`. -/
structure SorResult (n : ℕ) where
  output : Fin n → Fin n → ℝ
  nIter : ℕ
  converged : Bool
  warned : Bool
  inError : ℝ
  omega : ℝ

/-- `successiveOverRelax(source, maxIter, eLevel)` for a square `n × n`
source. -/
noncomputable def successiveOverRelax (n : ℕ) (source : RGrid)
    (maxIter : ℕ) (eLevel : ℝ) : SorResult n :=
  let inError := absSumR (sorInitResid n source) (n + 2)
  let r := sorLoop n source (sorRho n) eLevel inError (maxIter * 2)
    (sorInitState n source)
  { output := fun i j => r.1.func (i.1 + 1) (j.1 + 1),
    nIter := r.1.nIter,
    converged := r.2,
    warned := decide (maxIter * 2 ≤ r.1.nIter),
    inError := inError,
    omega := r.1.omega }

/-- The pure Chebyshev `omega` recurrence as performed by the loop:
`omegaIter rho om k f` is the value of `omega` after `f` further
non-breaking half-steps starting from `omega = om`, `nIter = k`. -/
def omegaIter (rho : ℝ) : ℝ → ℕ → ℕ → ℝ
  | om, _, 0 => om
  | om, k, f + 1 =>
    omegaIter rho
      (if k = 0 then 1 / (1 - rho * rho / 2) else 1 / (1 - rho * rho * om / 4))
      (k + 1) f

end

/-!  ## Theorems -/

/-- A `k × k` sum of a function supported on the single in-range cell
`(a, b)`. -/
theorem sum_ite_pair (k a b : ℕ) (c : ℚ) (ha : a < k) (hb : b < k) :
    (∑ i ∈ Finset.range k, ∑ j ∈ Finset.range k,
      (if i = a ∧ j = b then c else 0)) = c := by
  rw [Finset.sum_eq_single a]
  · rw [Finset.sum_eq_single b]
    · simp
    · intro j _ hj
      simp [hj]
    · intro hmem
      exact absurd (Finset.mem_range.mpr hb) hmem
  · intro i _ hi
    simp [hi]
  · intro hmem
    exact absurd (Finset.mem_range.mpr ha) hmem

/-- Assigning one in-range cell changes a `k × k` grid sum by the
difference between the new and the old value. -/
theorem gridSum_upd (g : Grid) (a b : ℕ) (v : ℚ) (k : ℕ)
    (ha : a < k) (hb : b < k) :
    gridSum (upd g a b v) k = gridSum g k - g a b + v := by
  have hpt : ∀ i j, upd g a b v i j
      = g i j + (if i = a ∧ j = b then v - g a b else 0) := by
    intro i j
    unfold upd
    by_cases h : i = a ∧ j = b
    · obtain ⟨rfl, rfl⟩ := h
      simp
    · simp [h]
  unfold gridSum
  calc (∑ i ∈ Finset.range k, ∑ j ∈ Finset.range k, upd g a b v i j)
      = ∑ i ∈ Finset.range k, ∑ j ∈ Finset.range k,
          (g i j + (if i = a ∧ j = b then v - g a b else 0)) := by
        exact Finset.sum_congr rfl (fun i _ =>
          Finset.sum_congr rfl (fun j _ => hpt i j))
    _ = (∑ i ∈ Finset.range k, ∑ j ∈ Finset.range k, g i j)
        + (∑ i ∈ Finset.range k, ∑ j ∈ Finset.range k,
            (if i = a ∧ j = b then v - g a b else 0)) := by
        rw [← Finset.sum_add_distrib]
        exact Finset.sum_congr rfl (fun i _ => Finset.sum_add_distrib)
    _ = (∑ i ∈ Finset.range k, ∑ j ∈ Finset.range k, g i j) - g a b + v := by
        rw [sum_ite_pair k a b _ ha hb]
        ring

/-- A single `_tileArray` loop iteration writes exactly its four
mirrored cells, all with the value `in_array[i, j]`. -/
theorem tileStep_apply (q : Grid) (L : ℕ) (g : Grid) (ij : ℕ × ℕ)
    (x y : ℕ) :
    tileStep q L g ij x y
      = if (x, y) ∈ tileCells L ij then q ij.1 ij.2 else g x y := by
  unfold tileStep tileCells upd
  simp only [List.mem_cons, List.not_mem_nil, or_false, Prod.ext_iff]
  split_ifs <;> first | rfl | tauto

/-- `ndist` at an upper mirror index. -/
theorem ndist_add_self (i L : ℕ) : ndist (i + L) L = i := by
  unfold ndist
  omega

/-- `ndist` at a lower mirror index. -/
theorem ndist_sub_self (i L : ℕ) (h : i ≤ L) : ndist (L - i) L = i := by
  unfold ndist
  omega

/-- Every cell written by the iteration for `(i, j)` (with `i, j ≤ L`)
receives the value `q (ndist x L) (ndist y L)`. -/
theorem tileCells_value (q : Grid) (L : ℕ) (ij : ℕ × ℕ) (x y : ℕ)
    (hij : ij.1 ≤ L ∧ ij.2 ≤ L) (hw : (x, y) ∈ tileCells L ij) :
    q ij.1 ij.2 = q (ndist x L) (ndist y L) := by
  rcases (by simpa [tileCells, Prod.ext_iff] using hw) with
    ⟨hx, hy⟩ | ⟨hx, hy⟩ | ⟨hx, hy⟩ | ⟨hx, hy⟩ <;>
    subst hx <;> subst hy <;>
    rw [show ndist _ L = ij.1 from by unfold ndist; omega,
      show ndist _ L = ij.2 from by unfold ndist; omega]

/-- Folding the `_tileArray` loop body over any list of in-range index
pairs: a cell holds `q (ndist x L) (ndist y L)` if some iteration wrote
it, and its initial value otherwise. -/
theorem tileFold_apply (q : Grid) (L : ℕ) (ps : List (ℕ × ℕ)) (g : Grid)
    (x y : ℕ) (hgood : ∀ ij ∈ ps, ij.1 ≤ L ∧ ij.2 ≤ L) :
    (ps.foldl (tileStep q L) g) x y
      = if ∃ ij ∈ ps, (x, y) ∈ tileCells L ij
        then q (ndist x L) (ndist y L) else g x y := by
  induction ps generalizing g with
  | nil => simp
  | cons hd tl ih =>
    have hhd := hgood hd (List.mem_cons_self hd tl)
    have htl : ∀ ij ∈ tl, ij.1 ≤ L ∧ ij.2 ≤ L :=
      fun ij h => hgood ij (List.mem_cons_of_mem hd h)
    rw [List.foldl_cons, ih (tileStep q L g hd) htl]
    by_cases hw : (x, y) ∈ tileCells L hd
    · have hv : tileStep q L g hd x y = q (ndist x L) (ndist y L) := by
        rw [tileStep_apply, if_pos hw]
        exact tileCells_value q L hd x y hhd hw
      by_cases hex : ∃ ij ∈ tl, (x, y) ∈ tileCells L ij
      · rw [if_pos hex, if_pos ⟨hd, List.mem_cons_self hd tl, hw⟩]
      · rw [if_neg hex, hv,
          if_pos ⟨hd, List.mem_cons_self hd tl, hw⟩]
    · have hcond : (∃ ij ∈ hd :: tl, (x, y) ∈ tileCells L ij)
          ↔ ∃ ij ∈ tl, (x, y) ∈ tileCells L ij := by
        constructor
        · rintro ⟨ij, hij, hmem⟩
          rcases List.mem_cons.mp hij with rfl | hij2
          · exact absurd hmem hw
          · exact ⟨ij, hij2, hmem⟩
        · rintro ⟨ij, hij, hmem⟩
          exact ⟨ij, List.mem_cons_of_mem hd hij, hmem⟩
      rw [tileStep_apply, if_neg hw]
      exact (if_congr hcond rfl rfl).symm

/-- Membership in the row-major index enumeration. -/
theorem mem_pairsRowMajor (m i j : ℕ) :
    (i, j) ∈ pairsRowMajor m ↔ i < m ∧ j < m := by
  simp [pairsRowMajor, Prod.ext_iff]

/-- Closed form of `_tileArray`: for a quarter-array of side `n ≥ 1`,
the tiled `(2n-1) × (2n-1)` output at `(x, y)` is the quarter-array
entry at the mirrored lags `(|x - (n-1)|, |y - (n-1)|)`. -/
theorem tileArray_apply (q : Grid) (n x y : ℕ) (hn : 1 ≤ n)
    (hx : x ≤ 2 * (n - 1)) (hy : y ≤ 2 * (n - 1)) :
    tileArray q n x y = q (ndist x (n - 1)) (ndist y (n - 1)) := by
  unfold tileArray
  have hgood : ∀ ij ∈ pairsRowMajor n, ij.1 ≤ n - 1 ∧ ij.2 ≤ n - 1 := by
    intro ij hij
    have := (mem_pairsRowMajor n ij.1 ij.2).mp (by simpa using hij)
    omega
  rw [tileFold_apply q (n - 1) _ _ x y hgood, if_pos]
  refine ⟨(ndist x (n - 1), ndist y (n - 1)), ?_, ?_⟩
  · rw [mem_pairsRowMajor]
    unfold ndist
    omega
  · simp only [tileCells, List.mem_cons, List.not_mem_nil, or_false,
      Prod.ext_iff]
    unfold ndist
    by_cases hxL : x ≤ n - 1 <;> by_cases hyL : y ≤ n - 1
    · right; right; right; omega
    · right; left; omega
    · right; right; left; omega
    · left; omega

/-- C7: the tiled array is symmetric under horizontal and vertical
mirroring about its center row and column, and its center cell equals
`Q[0, 0]`. -/
theorem tileArray_symmetric (q : Grid) (n x y : ℕ) (hn : 1 ≤ n)
    (hx : x ≤ 2 * (n - 1)) (hy : y ≤ 2 * (n - 1)) :
    tileArray q n (2 * (n - 1) - x) y = tileArray q n x y ∧
    tileArray q n x (2 * (n - 1) - y) = tileArray q n x y ∧
    tileArray q n (n - 1) (n - 1) = q 0 0 := by
  refine ⟨?_, ?_, ?_⟩
  · rw [tileArray_apply q n _ _ hn (by omega) hy,
      tileArray_apply q n x y hn hx hy]
    congr 1
    unfold ndist
    omega
  · rw [tileArray_apply q n _ _ hn hx (by omega),
      tileArray_apply q n x y hn hx hy]
    congr 1
    unfold ndist
    omega
  · rw [tileArray_apply q n _ _ hn (by omega) (by omega)]
    congr 1 <;> (unfold ndist; omega)

/-- Witness for C7 at a concrete quarter-array and cell. -/
theorem tileArray_symmetric_w :
    (1 ≤ 2 ∧ 1 ≤ 2 * (2 - 1) ∧ 0 ≤ 2 * (2 - 1)) ∧
    (tileArray (fun i j => (i : ℚ) + 2 * j) 2 (2 * (2 - 1) - 1) 0
        = tileArray (fun i j => (i : ℚ) + 2 * j) 2 1 0 ∧
      tileArray (fun i j => (i : ℚ) + 2 * j) 2 1 (2 * (2 - 1) - 0)
        = tileArray (fun i j => (i : ℚ) + 2 * j) 2 1 0 ∧
      tileArray (fun i j => (i : ℚ) + 2 * j) 2 (2 - 1) (2 - 1)
        = (fun i j => (i : ℚ) + 2 * j) 0 0) :=
  ⟨⟨by norm_num, by norm_num, by norm_num⟩,
   tileArray_symmetric (fun i j => (i : ℚ) + 2 * j) 2 1 0
     (by norm_num) (by norm_num) (by norm_num)⟩

/-- C1: for every statistics function, every value of `forceZeroSum`
(including the default `false`), and every non-empty list of `m × m`
correlation arrays, the padded averaged matrix returned by
`averageCorrelations` sums to exactly zero: the total sum is subtracted
from the center cell. -/
theorem averageCorrelations_sum_zero (stat : List ℚ → ℚ) (b : Bool)
    (xCorrList : List Grid) (m : ℕ) (hne : xCorrList ≠ []) :
    gridSum (averageCorrelations stat b xCorrList m) (m + 2) = 0 := by
  unfold averageCorrelations
  simp only [Bool.or_true, if_true]
  have hc : (m + 2 - 1) / 2 < m + 2 :=
    lt_of_le_of_lt (Nat.div_le_self _ 2) (by omega)
  rw [gridSum_upd _ _ _ _ _ hc hc]
  ring

/-- Witness for C1 at a concrete input: one constant `1 × 1` sample, the
head-of-list statistic, `forceZeroSum = false`. -/
theorem averageCorrelations_sum_zero_w :
    ([fun _ _ => (3 : ℚ)] ≠ ([] : List Grid)) ∧
    gridSum (averageCorrelations (fun l => l.headI) false
      [fun _ _ => (3 : ℚ)] 1) 3 = 0 := by
  refine ⟨by simp, ?_⟩
  exact averageCorrelations_sum_zero (fun l => l.headI) false
    [fun _ _ => (3 : ℚ)] 1 (by simp)

/-- C6 states the documented intent — the in-source comment above the
correction says the factor is applied "only once for the variance
element of the matrix, covArray[0,0]" — but the code diverges:
`covArray` has shape `(1, m, m)`, so `covArray[0, 0] /= varFactor`
divides the entire lag-row `[0, 0, :]`.  Every entry of that row, not
just the zero-lag cell, ends with exactly one net power of `varFactor`;
at the failing input `varFactor = 2` and constant covariance `5`, the
non-zero-lag entry `(0, 1)` becomes `2 * 5 = 10`, not the `2² * 5 = 20`
that the claim requires. -/
theorem correctCovArray_divides_first_row :
    (∀ (varFactor : ℚ) (covArray : Grid3) (p i j : ℕ),
      correctCovArray varFactor covArray p i j
        = if p = 0 ∧ i = 0 then varFactor * covArray p i j
          else varFactor ^ 2 * covArray p i j) ∧
    correctCovArray 2 (fun _ _ _ => 5) 0 0 1 = 2 * 5 ∧
    correctCovArray 2 (fun _ _ _ => 5) 0 0 1 ≠ 2 ^ 2 * 5 := by
  refine ⟨?_, ?_, ?_⟩
  · intro varFactor covArray p i j
    unfold correctCovArray
    by_cases h : p = 0 ∧ i = 0
    · obtain ⟨rfl, rfl⟩ := h
      rw [if_pos ⟨rfl, rfl⟩]
      rcases eq_or_ne varFactor 0 with h0 | h0
      · simp [h0]
      · field_simp
        ring
    · simp only [if_neg h]
      ring
  · norm_num [correctCovArray]
  · norm_num [correctCovArray]

/-- C5 states the documented behavior, but the code diverges: a sample
whose `muDiff` equals the configured minimum (or maximum) mean-signal
bound is excluded — the code tests `muDiff <= min` / `muDiff >= max`,
so the window is exclusive at both ends, contradicting the config field
documentation, which says "Minimum values (inclusive)" /
"Maximum values (inclusive)". -/
theorem expIdMaskFluxWindow_boundary_rejected :
    expIdMaskFluxWindow 100 100 1000 true = false ∧
    expIdMaskFluxWindow 1000 100 1000 true = false := by
  norm_num [expIdMaskFluxWindow]

/-- C2 as stated is false: a sample whose zero-lag entry after
subtracting `2·flux` is exactly `0` is not rejected — the code tests
`q[0][0] > 0.0` strictly — and it reaches the accepted list
`scaledCorrList`. -/
theorem selfTerm_boundary_sample_accepted :
    selfSubtractedQ 1 1 xcorrZeroLagZero 0 0 = 0 ∧
    (ampScaledCorr 2 2 1 [⟨1, xcorrZeroLagZero⟩] none).1.length = 1 := by
  constructor
  · norm_num [selfSubtractedQ, upd, xcorrZeroLagZero]
  · norm_num [ampScaledCorr, sampleStep, selfSubtractedQ, upd,
      xcorrZeroLagZero, tileArray, tileStep, pairsRowMajor, gridSum,
      gridAbsSum, Finset.sum_range_succ, List.range_succ]

/-- C2 amended: a sample whose zero-lag entry after subtracting `2·flux`
is strictly positive is rejected by the self-term check and leaves the
loop state (accepted list and `scaled` variable) unchanged, so it never
appears in `scaledCorrList`; a value of exactly `0` passes this check. -/
theorem sampleStep_rejects_positive_selfTerm (rejectLevel : ℚ) (n : ℕ)
    (gain flux : ℚ) (st : List Grid × Option Grid) (xcorr : Grid)
    (h : 0 < selfSubtractedQ gain flux xcorr 0 0) :
    sampleStep rejectLevel n gain flux st xcorr = st := by
  unfold sampleStep
  rw [if_pos h]

/-- Witness for the amended C2 at a concrete rejected sample. -/
theorem sampleStep_rejects_positive_selfTerm_w :
    0 < selfSubtractedQ 1 1 xcorrSelfTermPositive 0 0 ∧
    sampleStep 2 2 1 1 ([], none) xcorrSelfTermPositive = ([], none) :=
  ⟨by norm_num [selfSubtractedQ, upd, xcorrSelfTermPositive],
   sampleStep_rejects_positive_selfTerm 2 2 1 1 ([], none)
     xcorrSelfTermPositive
     (by norm_num [selfSubtractedQ, upd, xcorrSelfTermPositive])⟩

/-- C3 fails on the code: for a first amplifier all of whose samples are
rejected at the self-term check, the fallback
`np.zeros_like(np.pad(scaled, ((1, 1))))` reads the loop local `scaled`,
which was never assigned, so the task raises `NameError` instead of
emitting a zero kernel and continuing. -/
theorem ampRunStage_crash_when_all_rejected_first :
    ((ampRunStage 2 2 1 [⟨1, xcorrSelfTermPositive⟩] none).1).isCrash
      = true := by
  norm_num [ampRunStage, ampScaledCorr, sampleStep, selfSubtractedQ, upd,
    xcorrSelfTermPositive, AmpOutcome.isCrash]

/-- C8 fails on the code: with `level = DETECTOR`, the pooled
`detectorCorrList` is extended with every amplifier's accepted samples —
the configured exclusion list `ignoreAmpsForAveraging` is never read, so
a sample from an explicitly excluded amplifier still feeds the detector
kernel (here the excluded amplifier's single accepted sample is the
whole pool), and the pool is invariant under any change of the
exclusion list. -/
theorem detectorCorrList_ignores_exclusions :
    (runDetectorCorrList "DETECTOR" ["AMP1"] 2 2
        [("AMP1", 1, [⟨1, xcorrZeroLagZero⟩])]).length = 1 ∧
    (runDetectorCorrList "DETECTOR" ["AMP1"] 2 2
        [("AMP1", 1, [⟨1, xcorrZeroLagZero⟩])]).headI 1 0 = 1 ∧
    (∀ (level : String) (ign₁ ign₂ : List String) (rl : ℚ) (n : ℕ)
        (amps : List (String × ℚ × List BfkSample)),
      runDetectorCorrList level ign₁ rl n amps
        = runDetectorCorrList level ign₂ rl n amps) :=
  ⟨by norm_num [runDetectorCorrList, ampScaledCorr, sampleStep,
      selfSubtractedQ, upd, xcorrZeroLagZero, tileArray, tileStep,
      pairsRowMajor, gridSum, gridAbsSum, Finset.sum_range_succ,
      List.range_succ],
   by norm_num [runDetectorCorrList, ampScaledCorr, sampleStep,
      selfSubtractedQ, upd, xcorrZeroLagZero, tileArray, tileStep,
      pairsRowMajor, gridSum, gridAbsSum, Finset.sum_range_succ,
      List.range_succ],
   fun _ _ _ _ _ _ => rfl⟩

/-!  Lemmas about the successive over-relaxation solver. -/

/-- A property preserved by every step of a fold is preserved by the
whole fold. -/
theorem foldl_preserves {α β : Type} (P : α → Prop) (f : α → β → α)
    (hf : ∀ a ij, P a → P (f a ij)) :
    ∀ (ps : List β) (a : α), P a → P (ps.foldl f a) := by
  intro ps
  induction ps with
  | nil => intro a h; simpa
  | cons hd tl ih => intro a h; exact ih _ (hf a hd h)

/-- The sum of absolute values of a pointwise-zero grid is zero. -/
theorem absSumR_zero (g : RGrid) (k : ℕ) (h : ∀ a b, g a b = 0) :
    absSumR g k = 0 := by
  unfold absSumR
  exact Finset.sum_eq_zero fun i _ =>
    Finset.sum_eq_zero fun j _ => by simp [h]

/-- For an all-zero source the initial residual array is pointwise
zero. -/
theorem sorInitResid_zero (n : ℕ) :
    ∀ a b, sorInitResid n (fun _ _ => 0) a b = 0 := by
  unfold sorInitResid
  have h := foldl_preserves (fun r : RGrid => ∀ a b, r a b = 0)
    (fun r ij => updR r ij.1 ij.2
      ((fun (_ _ : ℕ) => (0 : ℝ)) ij.1 (ij.2 - 1)
        + (fun (_ _ : ℕ) => (0 : ℝ)) ij.1 (ij.2 + 1)
        + (fun (_ _ : ℕ) => (0 : ℝ)) (ij.1 - 1) ij.2
        + (fun (_ _ : ℕ) => (0 : ℝ)) (ij.1 + 1) ij.2
        - 4 * (fun (_ _ : ℕ) => (0 : ℝ)) ij.1 ij.2
        - (fun (_ _ : ℕ) => (0 : ℝ)) (ij.1 - 1) (ij.2 - 1)))
    (fun r ij hr a b => by
      unfold updR
      by_cases hab : a = ij.1 ∧ b = ij.2 <;> simp [hab, hr])
    (interiorPairs (n + 2)) (fun _ _ => 0) (fun _ _ => rfl)
  exact h

/-- One Gauss-Seidel point update on an all-zero state with an all-zero
source leaves both working arrays pointwise zero. -/
theorem sorUpdate_zero (om : ℝ) (st : RGrid × RGrid) (ij : ℕ × ℕ)
    (hf : ∀ a b, st.1 a b = 0) (hr : ∀ a b, st.2 a b = 0) :
    (∀ a b, (sorUpdate (fun _ _ => 0) om st ij).1 a b = 0) ∧
    (∀ a b, (sorUpdate (fun _ _ => 0) om st ij).2 a b = 0) := by
  have hres : residSweepAt (fun _ _ => 0) st.1 ij.1 ij.2 = 0 := by
    simp [residSweepAt, hf]
  constructor <;> intro a b <;>
    simp only [sorUpdate, updR, hres] <;>
    by_cases hab : a = ij.1 ∧ b = ij.2 <;>
    simp [hab, hf, hr]

/-- A half-sweep on an all-zero state with an all-zero source leaves the
state pointwise zero and does not touch `omega` or `nIter`. -/
theorem sorSweep_zero (n : ℕ) (s : SorState)
    (hf : ∀ a b, s.func a b = 0) (hr : ∀ a b, s.resid a b = 0) :
    (∀ a b, (sorSweep n (fun _ _ => 0) s).func a b = 0) ∧
    (∀ a b, (sorSweep n (fun _ _ => 0) s).resid a b = 0) ∧
    (sorSweep n (fun _ _ => 0) s).omega = s.omega ∧
    (sorSweep n (fun _ _ => 0) s).nIter = s.nIter := by
  have h := foldl_preserves
    (fun st : RGrid × RGrid =>
      (∀ a b, st.1 a b = 0) ∧ (∀ a b, st.2 a b = 0))
    (sorUpdate (fun _ _ => 0) s.omega)
    (fun st ij hst => sorUpdate_zero s.omega st ij hst.1 hst.2)
    (if s.nIter % 2 = 0 then sweepPairsEven (n + 2)
      else sweepPairsOdd (n + 2))
    (s.func, s.resid) ⟨hf, hr⟩
  exact ⟨h.1, h.2, rfl, rfl⟩

/-- Master lemma for the all-zero run: with zero source and zero initial
error, the loop never takes the convergence break, increments `nIter`
once per half-step until the fuel is exhausted, keeps both arrays
pointwise zero, and drives `omega` through the pure Chebyshev
recurrence. -/
theorem sorLoop_zero (n : ℕ) (rho e : ℝ) (fuel : ℕ) :
    ∀ (s : SorState), (∀ a b, s.func a b = 0) → (∀ a b, s.resid a b = 0) →
    (∀ a b, (sorLoop n (fun _ _ => 0) rho e 0 fuel s).1.func a b = 0) ∧
    (∀ a b, (sorLoop n (fun _ _ => 0) rho e 0 fuel s).1.resid a b = 0) ∧
    (sorLoop n (fun _ _ => 0) rho e 0 fuel s).2 = false ∧
    (sorLoop n (fun _ _ => 0) rho e 0 fuel s).1.nIter = s.nIter + fuel ∧
    (sorLoop n (fun _ _ => 0) rho e 0 fuel s).1.omega
      = omegaIter rho s.omega s.nIter fuel := by
  induction fuel with
  | zero =>
    intro s hf hr
    exact ⟨hf, hr, rfl, rfl, rfl⟩
  | succ f ih =>
    intro s hf hr
    obtain ⟨hf1, hr1, hom1, hn1⟩ := sorSweep_zero n s hf hr
    have hout : absSumR (sorSweep n (fun _ _ => 0) s).resid (n + 2) = 0 :=
      absSumR_zero _ _ hr1
    have hnb : ¬ absSumR (sorSweep n (fun _ _ => 0) s).resid (n + 2)
        < 0 * e := by
      rw [hout, zero_mul]
      exact lt_irrefl 0
    simp only [sorLoop, if_neg hnb]
    have := ih { sorSweep n (fun _ _ => 0) s with
        omega := if (sorSweep n (fun _ _ => 0) s).nIter = 0
                 then 1 / (1 - rho * rho / 2)
                 else 1 / (1 - rho * rho * (sorSweep n (fun _ _ => 0) s).omega / 4),
        nIter := (sorSweep n (fun _ _ => 0) s).nIter + 1 }
      hf1 hr1
    refine ⟨this.1, this.2.1, this.2.2.1, ?_, ?_⟩
    · rw [this.2.2.2.1]
      simp only [hn1]
      omega
    · rw [this.2.2.2.2]
      simp only [hn1, hom1, omegaIter]

/-- C10: for an all-zero source matrix the initial residual sum
`inError` is zero, so the strict test `outError < inError*eLevel` never
succeeds: the solver runs all `2*maxIter` half-steps, reports a
convergence failure (the warning fires, the break never does), and
returns the all-zero interior even though the exact solution was reached
immediately. -/
theorem successiveOverRelax_zero_source (n maxIter : ℕ) (eLevel : ℝ) :
    (successiveOverRelax n (fun _ _ => 0) maxIter eLevel).inError = 0 ∧
    (successiveOverRelax n (fun _ _ => 0) maxIter eLevel).converged = false ∧
    (successiveOverRelax n (fun _ _ => 0) maxIter eLevel).nIter
      = maxIter * 2 ∧
    (successiveOverRelax n (fun _ _ => 0) maxIter eLevel).warned = true ∧
    ∀ (i j : Fin n),
      (successiveOverRelax n (fun _ _ => 0) maxIter eLevel).output i j = 0 := by
  have hIE : absSumR (sorInitResid n (fun _ _ => 0)) (n + 2) = 0 :=
    absSumR_zero _ _ (sorInitResid_zero n)
  have hz := sorLoop_zero n (sorRho n) eLevel (maxIter * 2)
    (sorInitState n (fun _ _ => 0)) (fun _ _ => rfl) (sorInitResid_zero n)
  simp only [successiveOverRelax, hIE]
  refine ⟨trivial, hz.2.2.1, ?_, ?_, ?_⟩
  · rw [hz.2.2.2.1]
    simp [sorInitState]
  · rw [hz.2.2.2.1]
    simp [sorInitState]
  · intro i j
    exact hz.1 (i.1 + 1) (j.1 + 1)

/-- One unfolding of the loop at positive fuel, with the successor state
written out. -/
theorem sorLoop_succ (n : ℕ) (src : RGrid) (rho e iE : ℝ) (f : ℕ)
    (s : SorState) :
    sorLoop n src rho e iE (f + 1) s
      = if absSumR (sorSweep n src s).resid (n + 2) < iE * e
        then (sorSweep n src s, true)
        else sorLoop n src rho e iE f
          { sorSweep n src s with
            omega := if s.nIter = 0 then 1 / (1 - rho * rho / 2)
                     else 1 / (1 - rho * rho * (sorSweep n src s).omega / 4),
            nIter := s.nIter + 1 } := rfl

/-- The loop performs at most `fuel` half-steps: the final `nIter`, plus
one for a final breaking half-step, never exceeds the starting `nIter`
plus the fuel. -/
theorem sorLoop_nIter_bound (n : ℕ) (src : RGrid) (rho e iE : ℝ)
    (fuel : ℕ) :
    ∀ s : SorState,
      (sorLoop n src rho e iE fuel s).1.nIter
          + (if (sorLoop n src rho e iE fuel s).2 then 1 else 0)
        ≤ s.nIter + fuel := by
  induction fuel with
  | zero =>
    intro s
    simp [sorLoop]
  | succ f ih =>
    intro s
    rw [sorLoop_succ]
    by_cases hb : absSumR (sorSweep n src s).resid (n + 2) < iE * e
    · rw [if_pos hb]
      have hn : (sorSweep n src s).nIter = s.nIter := rfl
      have hgoal : (sorSweep n src s).nIter + 1 ≤ s.nIter + (f + 1) := by
        rw [hn]
        omega
      simpa using hgoal
    · rw [if_neg hb]
      have h := ih { sorSweep n src s with
        omega := if s.nIter = 0 then 1 / (1 - rho * rho / 2)
                 else 1 / (1 - rho * rho * (sorSweep n src s).omega / 4),
        nIter := s.nIter + 1 }
      have hn : ({ sorSweep n src s with
        omega := if s.nIter = 0 then 1 / (1 - rho * rho / 2)
                 else 1 / (1 - rho * rho * (sorSweep n src s).omega / 4),
        nIter := s.nIter + 1 } : SorState).nIter = s.nIter + 1 := rfl
      rw [hn] at h
      omega

/-- If the convergence break is never taken, the loop consumes all its
fuel, incrementing `nIter` each half-step. -/
theorem sorLoop_nIter_exhaust (n : ℕ) (src : RGrid) (rho e iE : ℝ)
    (fuel : ℕ) :
    ∀ s : SorState, (sorLoop n src rho e iE fuel s).2 = false →
      (sorLoop n src rho e iE fuel s).1.nIter = s.nIter + fuel := by
  induction fuel with
  | zero =>
    intro s _
    rfl
  | succ f ih =>
    intro s hc
    rw [sorLoop_succ] at hc ⊢
    by_cases hb : absSumR (sorSweep n src s).resid (n + 2) < iE * e
    · rw [if_pos hb] at hc
      exact absurd hc (by simp)
    · rw [if_neg hb] at hc ⊢
      have h := ih { sorSweep n src s with
        omega := if s.nIter = 0 then 1 / (1 - rho * rho / 2)
                 else 1 / (1 - rho * rho * (sorSweep n src s).omega / 4),
        nIter := s.nIter + 1 } hc
      have hn : ({ sorSweep n src s with
        omega := if s.nIter = 0 then 1 / (1 - rho * rho / 2)
                 else 1 / (1 - rho * rho * (sorSweep n src s).omega / 4),
        nIter := s.nIter + 1 } : SorState).nIter = s.nIter + 1 := rfl
      rw [hn] at h
      omega

/-- C9: for every square source, `successiveOverRelax` performs at most
`2*maxIter` half-step loop iterations (the function is total, so it
always returns; the interior output is typed to the input's `n × n`
shape), and exhausting the budget is reported only through the warning
flag, which fires exactly when the convergence break was never taken. -/
theorem successiveOverRelax_budget (n : ℕ) (source : RGrid)
    (maxIter : ℕ) (eLevel : ℝ) :
    (successiveOverRelax n source maxIter eLevel).nIter
        + (if (successiveOverRelax n source maxIter eLevel).converged
           then 1 else 0)
      ≤ 2 * maxIter ∧
    ((successiveOverRelax n source maxIter eLevel).warned = true
      ↔ (successiveOverRelax n source maxIter eLevel).converged = false) := by
  simp only [successiveOverRelax]
  have hb := sorLoop_nIter_bound n source (sorRho n) eLevel
    (absSumR (sorInitResid n source) (n + 2)) (maxIter * 2)
    (sorInitState n source)
  have h0 : (sorInitState n source).nIter = 0 := rfl
  rw [h0] at hb
  constructor
  · omega
  · by_cases hc : (sorLoop n source (sorRho n) eLevel
        (absSumR (sorInitResid n source) (n + 2)) (maxIter * 2)
        (sorInitState n source)).2
    · rw [if_pos hc] at hb
      simp only [hc]
      constructor
      · intro hw
        rw [decide_eq_true_iff] at hw
        omega
      · intro hcontra
        exact absurd hcontra (by simp)
    · have he := sorLoop_nIter_exhaust n source (sorRho n) eLevel
        (absSumR (sorInitResid n source) (n + 2)) (maxIter * 2)
        (sorInitState n source) (by simpa using hc)
      rw [h0] at he
      simp only [he, Bool.not_eq_true] at hc ⊢
      simp [hc]

/-- C4 as stated is false at a concrete input: for the `3 × 3` all-zero
source (where the convergence break is never taken, so both half-steps
of the first full red-black sweep run), the relaxation parameter after
the first full pair of half-steps is not `1/(1 - ρ²/2)` — the code has
already applied the recurrence twice, once per half-step, giving
`1/(1 - ρ²·(1/(1 - ρ²/2))/4) = 14/13` for `ρ = cos(π/3) = 1/2`, whereas
recomputing only after each full pair would give `8/7`. -/
theorem sor_omega_updated_each_half_step :
    (successiveOverRelax 3 (fun _ _ => 0) 1 1).omega
      ≠ 1 / (1 - sorRho 3 * sorRho 3 / 2) := by
  have hrho : sorRho 3 = 1 / 2 := by
    unfold sorRho
    norm_num [Real.cos_pi_div_three]
  have hIE : absSumR (sorInitResid 3 (fun _ _ => 0)) (3 + 2) = 0 :=
    absSumR_zero _ _ (sorInitResid_zero 3)
  have hz := sorLoop_zero 3 (sorRho 3) 1 (1 * 2)
    (sorInitState 3 (fun _ _ => 0)) (fun _ _ => rfl) (sorInitResid_zero 3)
  simp only [successiveOverRelax, hIE]
  rw [hz.2.2.2.2]
  have h0 : (sorInitState 3 (fun _ _ => 0)).nIter = 0 := rfl
  have h1 : (sorInitState 3 (fun _ _ => 0)).omega = 1 := rfl
  rw [h0, h1, hrho]
  norm_num [omegaIter]

/-- C4 amended: `ω` starts at 1 and is recomputed after every
half-step (not once per full pair): whenever a half-step does not take
the convergence break, the loop continues with
`ω := 1/(1 - ρ²/2)` if it was the first half-step and
`ω := 1/(1 - ρ²·ω/4)` thereafter, where `ρ = cos(π/gridSize)` for the
square source grid. -/
theorem sorLoop_omega_recurrence (n : ℕ) (source : RGrid)
    (eLevel inError : ℝ) (fuel : ℕ) (s : SorState)
    (h : ¬ absSumR (sorSweep n source s).resid (n + 2)
        < inError * eLevel) :
    (sorInitState n source).omega = 1 ∧
    sorLoop n source (sorRho n) eLevel inError (fuel + 1) s
      = sorLoop n source (sorRho n) eLevel inError fuel
          { sorSweep n source s with
            omega := if s.nIter = 0 then 1 / (1 - sorRho n * sorRho n / 2)
                     else 1 / (1 - sorRho n * sorRho n * s.omega / 4),
            nIter := s.nIter + 1 } := by
  constructor
  · rfl
  · simp only [sorLoop]
    rw [if_neg h]
    rfl

/-- Witness for the amended C4 at a concrete non-breaking half-step. -/
theorem sorLoop_omega_recurrence_w :
    (¬ absSumR (sorSweep 3 (fun _ _ => 0)
          (sorInitState 3 (fun _ _ => 0))).resid (3 + 2) < 0 * 1) ∧
    ((sorInitState 3 (fun _ _ => 0)).omega = 1 ∧
      sorLoop 3 (fun _ _ => 0) (sorRho 3) 1 0 (0 + 1)
          (sorInitState 3 (fun _ _ => 0))
        = sorLoop 3 (fun _ _ => 0) (sorRho 3) 1 0 0
            { sorSweep 3 (fun _ _ => 0) (sorInitState 3 (fun _ _ => 0)) with
              omega := if (sorInitState 3 (fun _ _ => 0)).nIter = 0
                       then 1 / (1 - sorRho 3 * sorRho 3 / 2)
                       else 1 / (1 - sorRho 3 * sorRho 3
                           * (sorInitState 3 (fun _ _ => 0)).omega / 4),
              nIter := (sorInitState 3 (fun _ _ => 0)).nIter + 1 }) := by
  have hsw := sorSweep_zero 3 (sorInitState 3 (fun _ _ => 0))
    (fun _ _ => rfl) (sorInitResid_zero 3)
  have h : ¬ absSumR (sorSweep 3 (fun _ _ => 0)
      (sorInitState 3 (fun _ _ => 0))).resid (3 + 2) < 0 * 1 := by
    rw [absSumR_zero _ _ hsw.2.1, zero_mul]
    exact lt_irrefl 0
  exact ⟨h, sorLoop_omega_recurrence 3 (fun _ _ => 0) 1 0 0
    (sorInitState 3 (fun _ _ => 0)) h⟩

end CpPipe



